import Mathlib

/-!
Shallow embedding of the pynq_scope acquisition server
(`src/server/pynq_scope_server.py` and `src/server/dma_acquisition.py`).

Samples are modelled as integers (`ℤ`), frames as lists of per-channel
sample lists, WebSocket subscribers as natural-number identifiers, and the
module-level `SAMPLE_RATE` global as a field of the manager state.  JSON
values arriving on the configuration channel are modelled by `Value`
(numeric or string), so that non-numeric configuration payloads can be
expressed.  Fallible Python operations (`list.remove`, `np.concatenate` of
an empty list, the `try`/`except` in `handle_action`) are modelled with
`Except`.
-/

/-- Module-level constant `SAMPLE_RATE = 1000` from `pynq_scope_server.py`. -/
def SAMPLE_RATE : ℕ := 1000

/-- Module-level constant `CHUNK_SIZE = 100` from `pynq_scope_server.py`. -/
def CHUNK_SIZE : ℕ := 100

/-- One frame: a list of per-channel sample sequences (the `(channels, chunk)`
numpy array produced by one acquisition-loop iteration). -/
abbrev Frame : Type := List (List ℤ)

/-- A JSON-ish parameter value on the configuration channel: either a number
or a non-numeric (string) payload. -/
inductive Value where
  | num (n : ℤ)
  | str (s : String)
deriving DecidableEq, Repr

/-- State of `AcquisitionManager` (plus the module global `SAMPLE_RATE`,
which `handle_action` mutates).  `active_connections` holds subscriber ids;
`acquisition_task` holds the arguments of the spawned `_acquisition_loop`
task when one exists (`None` otherwise). -/
structure AcqManager where
  active_connections : List ℕ
  is_running : Bool
  acquisition_task : Option (String × ℤ)
  emulate : Bool
  phase : ℕ
  data_buffer : List Frame
  sample_rate : Value
deriving DecidableEq

/-- `AcquisitionManager.start_acquisition`: if not running, set the running
flag, spawn the acquisition task and report started; otherwise report
already running.  The returned `Bool` records whether a new producer task
was created by this call. -/
def startAcquisition (m : AcqManager) (mode : String) (duration : ℤ) :
    AcqManager × String × Bool :=
  if !m.is_running then
    ({ m with is_running := true, acquisition_task := some (mode, duration) },
     "Acquisition démarrée", true)
  else
    (m, "Acquisition déjà en cours", false)

/-- `AcquisitionManager.stop_acquisition`: if running with a live task,
clear the flag, cancel and drop the task and report stopped; otherwise
report not started.  The returned `Bool` records whether a task was
cancelled by this call. -/
def stopAcquisition (m : AcqManager) : AcqManager × String × Bool :=
  if m.is_running && m.acquisition_task.isSome then
    ({ m with is_running := false, acquisition_task := none },
     "Acquisition arrêtée", true)
  else
    (m, "Acquisition non démarrée", false)

/-- Python `list.remove(x)`: removes the first occurrence of `x`, raising
`ValueError` if `x` is absent. -/
def listRemove (l : List ℕ) (x : ℕ) : Except String (List ℕ) :=
  match l with
  | [] => Except.error "list.remove(x): x not in list"
  | a :: rest =>
    if a = x then Except.ok rest
    else (listRemove rest x).map (fun r => a :: r)

/-- `AcquisitionManager.disconnect`: `self.active_connections.remove(websocket)`. -/
def disconnect (m : AcqManager) (ws : ℕ) : Except String AcqManager :=
  (listRemove m.active_connections ws).map
    (fun l => { m with active_connections := l })

/-- One simulated `websocket.send_bytes` call: subscribers listed in
`failing` raise on send, the others accept the payload. -/
def sendBytes (failing : List ℕ) (client : ℕ) : Except String Unit :=
  if client ∈ failing then Except.error "send failed" else Except.ok ()

/-- `AcquisitionManager.broadcast`: `asyncio.gather(..., return_exceptions=True)`
collects one result per current subscriber (in registry order); failures are
only logged (`"... Déconnexion."`), the registry itself is left untouched and
no exception escapes to the caller.  Returns the (unchanged) manager, the
per-subscriber send results, and the log lines emitted. -/
def broadcast (failing : List ℕ) (m : AcqManager) :
    AcqManager × List (ℕ × Except String Unit) × List String :=
  let results := m.active_connections.map (fun c => (c, sendBytes failing c))
  let logs := results.enum.filterMap
    (fun ir =>
      match ir.2.2 with
      | Except.error e =>
        some ("Erreur envoi client " ++ toString ir.1 ++ ": " ++ e ++ ". Déconnexion.")
      | Except.ok _ => none)
  (m, results, logs)

/-- Python extended slice `l[start::step]` (for `step ≥ 1`): every `step`-th
element of `l` starting at index `start`. -/
def everyNth (step : ℕ) : List α → List α
  | [] => []
  | a :: rest => a :: everyNth step (rest.drop (step - 1))
termination_by l => l.length
decreasing_by
  simp only [List.length_drop, List.length_cons]
  omega

/-- Slice `l[start::step]` written as a drop followed by a stride walk. -/
def sliceEvery (l : List α) (start step : ℕ) : List α :=
  everyNth step (l.drop start)

/-- `dmaAcquisition.acquire_data`: validates `packet_size`, then (in real
code) writes the two FPGA registers, runs the DMA transfer into a buffer of
`packet_size * 8` int16 samples, and demultiplexes it into 8 per-channel
arrays `output_buffer[i::8]`.  The DMA transfer is modelled by taking the
raw interleaved buffer as an argument; the second component of the result
records the hardware register writes performed by the call. -/
def acquireData (rate_acquisition packet_size : ℤ) (raw : List ℤ) :
    Except String (List (List ℤ)) × List (String × ℤ) :=
  if ¬(0 ≤ packet_size ∧ packet_size ≤ 1023) then
    (Except.error "packet_size must be between 0 and 1023.", [])
  else
    (Except.ok [sliceEvery raw 0 8, sliceEvery raw 1 8, sliceEvery raw 2 8,
       sliceEvery raw 3 8, sliceEvery raw 4 8, sliceEvery raw 5 8,
       sliceEvery raw 6 8, sliceEvery raw 7 8],
     [("rate_acquisition", rate_acquisition), ("packet_size", packet_size)])

/-- `np.concatenate(data_buffer, axis=1)`: raises on an empty list, otherwise
joins the frames column-wise (per-channel row concatenation). -/
def concatAxis1 (buffer : List Frame) : Except String Frame :=
  match buffer with
  | [] => Except.error "need at least one array to concatenate"
  | f :: rest =>
    Except.ok (rest.foldl (fun acc g => List.zipWith (fun x y => x ++ y) acc g) f)

/-- Numpy transpose `.T` of a rectangular `(rows, cols)` array: row `n` of
the result collects entry `n` of every original row. -/
def npTranspose (a : List (List ℤ)) : List (List ℤ) :=
  (List.range (a.head?.getD []).length).map
    (fun n => a.map (fun row => (row[n]?).getD 0))

/-- The `np.savetxt` header `",".join([f"Channel {i}" for i in range(8)])`. -/
def csvHeader : String :=
  String.intercalate "," ((List.range 8).map (fun i => "Channel " ++ toString i))

/-- `AcquisitionManager.save_recorded_data`: concatenate the buffered frames
along the sample axis, transpose to one row per sample, and emit the CSV
lines (`fmt='%d'`, comma delimiter, header first).  The lines of the written
file are returned; `np.concatenate` of an empty buffer raises, which the
model surfaces as `Except.error`. -/
def saveRecordedData (buffer : List Frame) : Except String (List String) :=
  (concatAxis1 buffer).map
    (fun all =>
      csvHeader ::
        (npTranspose all).map
          (fun row => String.intercalate "," (row.map toString)))

/-- Modelled from the spec side for comparison: "concatenates all frames
along the sample axis per channel" — channel `i` of the export is the
concatenation, in arrival order, of channel `i` of every buffered frame. -/
def specChannelConcat (buffer : List Frame) (i : ℕ) : List ℤ :=
  (buffer.map (fun f => (f[i]?).getD [])).flatten

/-- Total number of sample rows the export should contain: the sum of the
per-frame chunk lengths. -/
def totalSamples (buffer : List Frame) : ℕ :=
  (buffer.map (fun f => ((f.head?).getD []).length)).sum

/-- Python `params.get(key, default)` on the modelled parameter dict. -/
def dictGet (params : List (String × Value)) (key : String) (default : Value) :
    Value :=
  match params.find? (fun kv => kv.1 = key) with
  | some kv => kv.2
  | none => default

/-- Response dictionary of `AcquisitionManager.handle_action`: either
`\x7b"status": "Action traitée", "action": action\x7d` or
`\x7b"status": "erreur", "message": msg\x7d`. -/
structure ActionResponse where
  status : String
  action : Option String
  message : Option String
deriving DecidableEq, Repr

/-- `AcquisitionManager.handle_action`: `set_sample_rate` stores
`params.get("value", SAMPLE_RATE)` into the sample-rate global (with no
validation); `save_to_csv` runs the CSV export, whose exception (empty
buffer) is caught by the `try`/`except` and turned into an error response;
every other action name falls through to the same handled response. -/
def handleAction (st : AcqManager) (action : String)
    (params : List (String × Value)) : AcqManager × ActionResponse :=
  if action = "set_sample_rate" then
    ({ st with sample_rate := dictGet params "value" st.sample_rate },
     ⟨"Action traitée", some action, none⟩)
  else if action = "save_to_csv" then
    match saveRecordedData st.data_buffer with
    | Except.ok _ => (st, ⟨"Action traitée", some action, none⟩)
    | Except.error e => (st, ⟨"erreur", none, some e⟩)
  else
    (st, ⟨"Action traitée", some action, none⟩)

/-- A freshly constructed idle manager (emulation mode), as built by
`AcquisitionManager(emulate=True)` with the initial `SAMPLE_RATE` global. -/
def mgrIdle : AcqManager :=
  { active_connections := []
    is_running := false
    acquisition_task := none
    emulate := true
    phase := 0
    data_buffer := []
    sample_rate := Value.num 1000 }

/-- A running manager with three connected subscribers `0`, `1`, `2`. -/
def mgrThree : AcqManager :=
  { mgrIdle with
    active_connections := [0, 1, 2]
    is_running := true
    acquisition_task := some ("auto", 0) }

/-- Emulator per-channel frequency `freq = 50 * (i + 1)` and signal value
`amplitude * np.sin(2 * np.pi * freq * index / SAMPLE_RATE)` with
`amplitude = 2 ** 14`, at index `phase + j` (element `j` of
`np.arange(phase, phase + CHUNK_SIZE)`), idealized over the reals. -/
noncomputable def emuSignal (p i j : ℕ) : ℝ :=
  16384 * Real.sin (2 * Real.pi * (50 * (i + 1) : ℕ) * ((p + j : ℕ)) / (SAMPLE_RATE : ℕ))

/-- Reference signal of the spec: the same sinusoid evaluated at the
absolute sample index `n` counted across frame boundaries. -/
noncomputable def emuIdeal (i n : ℕ) : ℝ :=
  16384 * Real.sin (2 * Real.pi * (50 * (i + 1) : ℕ) * (n : ℕ) / (SAMPLE_RATE : ℕ))

/-- Truncation toward zero, the float-to-integer conversion used by numpy's
`astype` on floats. -/
noncomputable def truncToward0 (x : ℝ) : ℤ :=
  if 0 ≤ x then ⌊x⌋ else ⌈x⌉

/-- Wrap-around of an integer into the signed 16-bit range, the final step
of `astype(np.int16)`. -/
def toInt16 (z : ℤ) : ℤ :=
  (z + 2 ^ 15) % 2 ^ 16 - 2 ^ 15

/-- One emulator sample as stored in the int16 frame:
`signal.astype(DTYPE)` applied to the idealized signal value. -/
noncomputable def emuSampleInt (p i j : ℕ) : ℤ :=
  toInt16 (truncToward0 (emuSignal p i j))

/-- One emulated frame at phase accumulator value `p`: 8 channels of
`CHUNK_SIZE` int16 samples (`np.stack(channels)`). -/
noncomputable def emuFrame (p : ℕ) : Frame :=
  (List.range 8).map (fun i => (List.range CHUNK_SIZE).map (fun j => emuSampleInt p i j))

/-- Phase-accumulator update after one frame:
`self.phase = (self.phase + CHUNK_SIZE) % SAMPLE_RATE`. -/
def phaseStep (p : ℕ) : ℕ :=
  (p + CHUNK_SIZE) % SAMPLE_RATE

/-- Phase accumulator before frame `k`, starting from `self.phase = 0`. -/
def phaseAt : ℕ → ℕ
  | 0 => 0
  | k + 1 => phaseStep (phaseAt k)

/-- A concrete two-frame record buffer: 8 channels with 2 samples per
channel in the first frame and 1 sample per channel in the second. -/
def bufEx : List Frame :=
  [[[1, 2], [3, 4], [5, 6], [7, 8], [9, 10], [11, 12], [13, 14], [15, 16]],
   [[21], [22], [23], [24], [25], [26], [27], [28]]]

/-- Python `list.remove` expressed through `List.erase`: succeeds exactly on
membership and then erases the first occurrence. -/
theorem listRemove_eq (l : List ℕ) (x : ℕ) :
    listRemove l x =
      if x ∈ l then Except.ok (l.erase x)
      else Except.error "list.remove(x): x not in list" := by
  induction l with
  | nil => simp [listRemove]
  | cons a rest ih =>
    by_cases hax : a = x
    · subst hax
      simp [listRemove, List.erase_cons_head]
    · by_cases hmem : x ∈ rest
      · simp [listRemove, hax, ih, hmem, List.erase_cons, Except.map,
          Ne.symm hax]
      · simp [listRemove, hax, ih, hmem, Except.map, Ne.symm hax]

/-- C1: while a session is already running, `start_acquisition` returns the
"already running" status, leaves every manager field unchanged, and spawns
no second producer task. -/
theorem start_already_running_noop (m : AcqManager) (mode : String)
    (duration : ℤ) (h : m.is_running = true) :
    startAcquisition m mode duration = (m, "Acquisition déjà en cours", false) := by
  simp [startAcquisition, h]

/-- Witness for C1 at a concrete running manager. -/
theorem start_already_running_noop_witness :
    mgrThree.is_running = true ∧
      startAcquisition mgrThree "auto" 0 =
        (mgrThree, "Acquisition déjà en cours", false) :=
  ⟨rfl, start_already_running_noop mgrThree "auto" 0 rfl⟩

/-- C3: while idle, `stop_acquisition` returns the "not started" status and
modifies no manager field. -/
theorem stop_idle_noop (m : AcqManager) (h : m.is_running = false) :
    stopAcquisition m = (m, "Acquisition non démarrée", false) := by
  simp [stopAcquisition, h]

/-- Witness for C3 at a concrete idle manager. -/
theorem stop_idle_noop_witness :
    mgrIdle.is_running = false ∧
      stopAcquisition mgrIdle = (mgrIdle, "Acquisition non démarrée", false) :=
  ⟨rfl, stop_idle_noop mgrIdle rfl⟩

/-- C10: `disconnect` removes the first occurrence of a present subscriber —
its count drops by exactly one while every other subscriber's count is
preserved — and raises `ValueError` when the subscriber is absent. -/
theorem disconnect_requires_membership (m : AcqManager) (ws y : ℕ)
    (hy : y ≠ ws) :
    disconnect m ws =
      (if ws ∈ m.active_connections then
        Except.ok { m with active_connections := m.active_connections.erase ws }
      else Except.error "list.remove(x): x not in list") ∧
    (m.active_connections.erase ws).count ws = m.active_connections.count ws - 1 ∧
    (m.active_connections.erase ws).count y = m.active_connections.count y := by
  refine ⟨?_, List.count_erase_self ws m.active_connections,
    List.count_erase_of_ne hy m.active_connections⟩
  unfold disconnect
  rw [listRemove_eq]
  by_cases h : ws ∈ m.active_connections <;> simp [h, Except.map]

/-- Witness for C10: subscriber `2` is present in the three-client manager,
`5` is a distinct absent subscriber. -/
theorem disconnect_requires_membership_witness :
    (5 : ℕ) ≠ 2 ∧
      (disconnect mgrThree 2 =
        (if 2 ∈ mgrThree.active_connections then
          Except.ok { mgrThree with
            active_connections := mgrThree.active_connections.erase 2 }
        else Except.error "list.remove(x): x not in list") ∧
      (mgrThree.active_connections.erase 2).count 2 =
        mgrThree.active_connections.count 2 - 1 ∧
      (mgrThree.active_connections.erase 2).count 5 =
        mgrThree.active_connections.count 5) :=
  ⟨by decide, disconnect_requires_membership mgrThree 2 5 (by decide)⟩

/-- C2 (evaluation at the failing input): with subscribers `[0, 1, 2]` and a
send failure for subscriber `1`, `broadcast` still delivers to `0` and `2`,
returns normally (the failure is a collected result, not an exception), logs
the "Déconnexion." message for client `1` — but leaves subscriber `1` in
`active_connections`: no removal happens. -/
theorem broadcast_failure_not_removed :
    broadcast [1] mgrThree =
      (mgrThree,
       [(0, Except.ok ()), (1, Except.error "send failed"), (2, Except.ok ())],
       ["Erreur envoi client 1: send failed. Déconnexion."]) ∧
    (1 : ℕ) ∈ (broadcast [1] mgrThree).1.active_connections := by
  exact ⟨rfl, by decide⟩

/-- C8 (counterexample): the action name `"save_to_csv"` on a manager whose
record buffer is empty does not return the handled status — the exception
raised by `np.concatenate` of an empty list is caught and an error response
without the echoed action field is returned, with the state unchanged. -/
theorem handle_action_save_empty_error :
    (handleAction mgrIdle "save_to_csv" []).2 =
      ⟨"erreur", none, some "need at least one array to concatenate"⟩ ∧
    (handleAction mgrIdle "save_to_csv" []).2.status ≠ "Action traitée" ∧
    (handleAction mgrIdle "save_to_csv" []).1 = mgrIdle := by
  refine ⟨rfl, by decide, rfl⟩

/-- C8 (amended): every action name — in particular every unrecognized one —
returns the handled status echoing the action name; `"save_to_csv"` does so
provided its export does not raise, i.e. on a non-empty record buffer of
well-formed frames (8 equal-length channel rows each, the shapes
`np.concatenate(..., axis=1)` accepts — an empty buffer, and mismatched
frame shapes, raise instead and yield the error status). -/
theorem handle_action_handled_status (st : AcqManager) (action : String)
    (params : List (String × Value))
    (h : action ≠ "save_to_csv" ∨
      (st.data_buffer ≠ [] ∧
        ∀ f ∈ st.data_buffer, List.length f = 8 ∧
          ∀ row ∈ f, List.length row = ((f.head?).getD []).length)) :
    (handleAction st action params).2 = ⟨"Action traitée", some action, none⟩ := by
  unfold handleAction
  by_cases h1 : action = "set_sample_rate"
  · simp [h1]
  · by_cases h2 : action = "save_to_csv"
    · subst h2
      have hbuf : st.data_buffer ≠ [] := by
        rcases h with h | h
        · exact absurd rfl h
        · exact h.1
      obtain ⟨f, rest, hfr⟩ := List.exists_cons_of_ne_nil hbuf
      simp [h1, hfr, saveRecordedData, concatAxis1, Except.map]
    · simp [h1, h2]

/-- Witness for C8 (amended) at the unrecognized action name
`"unknown_action"`. -/
theorem handle_action_handled_status_witness :
    ("unknown_action" ≠ "save_to_csv" ∨
      (mgrIdle.data_buffer ≠ [] ∧
        ∀ f ∈ mgrIdle.data_buffer, List.length f = 8 ∧
          ∀ row ∈ f, List.length row = ((f.head?).getD []).length)) ∧
      (handleAction mgrIdle "unknown_action" []).2 =
        ⟨"Action traitée", some "unknown_action", none⟩ :=
  ⟨Or.inl (by decide),
   handle_action_handled_status mgrIdle "unknown_action" [] (Or.inl (by decide))⟩

/-- C9 (counterexample): a `set_sample_rate` request carrying the
non-numeric value `"fast"` is not rejected: the stored sample rate changes
from `1000` to the string `"fast"` and the call reports the handled status,
surfacing no error. -/
theorem set_sample_rate_non_numeric_accepted :
    (handleAction mgrIdle "set_sample_rate" [("value", Value.str "fast")]).1.sample_rate
      = Value.str "fast" ∧
    mgrIdle.sample_rate = Value.num 1000 ∧
    (handleAction mgrIdle "set_sample_rate" [("value", Value.str "fast")]).2.status
      = "Action traitée" :=
  ⟨rfl, rfl, rfl⟩

/-- C9 (amended): `set_sample_rate` stores whatever value the request
carries — numeric or not — into the sample-rate global and returns the
handled status; no validation is performed and no error is surfaced. -/
theorem set_sample_rate_stores_any_value (st : AcqManager) (v : Value)
    (rest : List (String × Value)) :
    handleAction st "set_sample_rate" (("value", v) :: rest) =
      ({ st with sample_rate := v },
       ⟨"Action traitée", some "set_sample_rate", none⟩) := by
  simp [handleAction, dictGet, List.find?]

/-- Element `k` of the stride-8 walk is element `k * 8` of the walked list. -/
theorem everyNth8_getElem (k : ℕ) :
    ∀ (l : List α), (everyNth 8 l)[k]? = l[k * 8]? := by
  induction k with
  | zero =>
    intro l
    cases l with
    | nil => simp [everyNth]
    | cons a rest => simp [everyNth]
  | succ k ih =>
    intro l
    cases l with
    | nil => simp [everyNth]
    | cons a rest =>
      have hunf : everyNth 8 (a :: rest) = a :: everyNth 8 (rest.drop 7) := by
        simp [everyNth]
      rw [hunf, List.getElem?_cons_succ, ih, List.getElem?_drop]
      have h8 : (k + 1) * 8 = (7 + k * 8) + 1 := by ring
      rw [h8, List.getElem?_cons_succ]

/-- Length of the stride-8 walk: one element per started block of 8. -/
theorem everyNth8_length_aux (n : ℕ) :
    ∀ (l : List α), l.length ≤ n → (everyNth 8 l).length = (l.length + 7) / 8 := by
  induction n with
  | zero =>
    intro l h
    have hl : l = [] := List.eq_nil_of_length_eq_zero (Nat.le_zero.mp h)
    subst hl
    simp [everyNth]
  | succ n ih =>
    intro l h
    cases l with
    | nil => simp [everyNth]
    | cons a rest =>
      have hunf : everyNth 8 (a :: rest) = a :: everyNth 8 (rest.drop 7) := by
        simp [everyNth]
      have h1 : (rest.drop 7).length ≤ n := by
        rw [List.length_drop]
        simp only [List.length_cons] at h
        omega
      rw [hunf, List.length_cons, ih (rest.drop 7) h1, List.length_drop,
        List.length_cons]
      omega

/-- Length of the stride-8 walk, unconditionally. -/
theorem everyNth8_length (l : List α) :
    (everyNth 8 l).length = (l.length + 7) / 8 :=
  everyNth8_length_aux l.length l le_rfl

/-- Element `k` of the slice `l[start::8]` is element `start + 8 * k` of `l`. -/
theorem sliceEvery8_getElem (l : List α) (start k : ℕ) :
    (sliceEvery l start 8)[k]? = l[start + 8 * k]? := by
  unfold sliceEvery
  rw [everyNth8_getElem, List.getElem?_drop]
  congr 1
  ring

/-- Length of the slice `l[start::8]`. -/
theorem sliceEvery8_length (l : List α) (start : ℕ) :
    (sliceEvery l start 8).length = (l.length - start + 7) / 8 := by
  unfold sliceEvery
  rw [everyNth8_length, List.length_drop]

/-- C4: `acquire_data` rejects any `packet_size` outside `[0, 1023]` with
the explicit range error before performing any register write (the write
trace is empty), while the boundary values `0` and `1023` pass validation. -/
theorem acquire_data_packet_size_validation (rate ps : ℤ) (raw : List ℤ)
    (h : ¬(0 ≤ ps ∧ ps ≤ 1023)) :
    acquireData rate ps raw =
      (Except.error "packet_size must be between 0 and 1023.", []) ∧
    (acquireData rate 0 raw).1.isOk = true ∧
    (acquireData rate 1023 raw).1.isOk = true := by
  refine ⟨by simp [acquireData, h], ?_, ?_⟩
  · norm_num [acquireData, Except.isOk]
    rfl
  · norm_num [acquireData, Except.isOk]
    rfl

/-- Witness for C4: `packet_size = 1024` is rejected with no register write;
`0` and `1023` are accepted. -/
theorem acquire_data_packet_size_validation_witness :
    ¬((0 : ℤ) ≤ 1024 ∧ (1024 : ℤ) ≤ 1023) ∧
      (acquireData 7 1024 [] =
        (Except.error "packet_size must be between 0 and 1023.", []) ∧
      (acquireData 7 0 []).1.isOk = true ∧
      (acquireData 7 1023 []).1.isOk = true) :=
  ⟨by decide, acquire_data_packet_size_validation 7 1024 [] (by decide)⟩

/-- C5: on a raw interleaved buffer of `8 * packet_size` samples,
`acquire_data` returns exactly 8 channel sequences, channel `i` has
`packet_size` samples, and sample `k` of channel `i` is buffer element
`i + 8 * k` (stride extraction). -/
theorem acquire_data_demux_stride (rate ps : ℤ) (raw : List ℤ) (p i k : ℕ)
    (hps : ps = (p : ℤ)) (hp : p ≤ 1023) (hlen : raw.length = 8 * p)
    (hi : i < 8) :
    ((acquireData rate ps raw).1.toOption.getD []).length = 8 ∧
    ((((acquireData rate ps raw).1.toOption.getD [])[i]?).getD []).length = p ∧
    ((((acquireData rate ps raw).1.toOption.getD [])[i]?).getD [])[k]? =
      raw[i + 8 * k]? := by
  subst hps
  have hcond : (0 : ℤ) ≤ (p : ℤ) ∧ (p : ℤ) ≤ 1023 :=
    ⟨Int.ofNat_nonneg p, by exact_mod_cast hp⟩
  simp only [acquireData, hcond, not_true_eq_false, and_self, if_false,
    not_not, if_pos, Except.toOption, Option.getD]
  refine ⟨rfl, ?_, ?_⟩ <;>
    interval_cases i <;>
      simp [sliceEvery8_length, sliceEvery8_getElem, hlen] <;> omega

/-- Witness for C5: a fully interleaved 16-sample buffer with
`packet_size = 2`, checked at channel `3`, sample `1`. -/
theorem acquire_data_demux_stride_witness :
    ((2 : ℤ) = ((2 : ℕ) : ℤ) ∧ (2 : ℕ) ≤ 1023 ∧
      ([0, 1, 2, 3, 4, 5, 6, 7, 8, 9, 10, 11, 12, 13, 14, 15] : List ℤ).length = 8 * 2 ∧
      (3 : ℕ) < 8) ∧
    (((acquireData 5 2 [0, 1, 2, 3, 4, 5, 6, 7, 8, 9, 10, 11, 12, 13, 14, 15]).1.toOption.getD []).length = 8 ∧
     ((((acquireData 5 2 [0, 1, 2, 3, 4, 5, 6, 7, 8, 9, 10, 11, 12, 13, 14, 15]).1.toOption.getD [])[3]?).getD []).length = 2 ∧
     ((((acquireData 5 2 [0, 1, 2, 3, 4, 5, 6, 7, 8, 9, 10, 11, 12, 13, 14, 15]).1.toOption.getD [])[3]?).getD [])[1]? =
       ([0, 1, 2, 3, 4, 5, 6, 7, 8, 9, 10, 11, 12, 13, 14, 15] : List ℤ)[3 + 8 * 1]?) :=
  ⟨⟨by decide, by decide, by decide, by decide⟩,
   acquire_data_demux_stride 5 2 [0, 1, 2, 3, 4, 5, 6, 7, 8, 9, 10, 11, 12, 13, 14, 15]
     2 3 1 (by decide) (by decide) (by decide) (by decide)⟩

/-- Pointwise reconstruction of a `map` through indexed access. -/
theorem map_eq_range_map {α β : Type _} (g : α → β) (d : α) :
    ∀ (l : List α),
      l.map g = (List.range l.length).map (fun i => g ((l[i]?).getD d)) := by
  intro l
  induction l with
  | nil => simp
  | cons a rest ih =>
    rw [List.length_cons, List.range_succ_eq_map, List.map_cons, List.map_cons,
      List.map_map]
    congr 1
    · simp
    · rw [ih]
      congr 1
      funext i
      simp [Function.comp, List.getElem?_cons_succ]

/-- The column-wise fold of `np.concatenate(..., axis=1)` keeps exactly 8
channel rows. -/
theorem concat_fold_length :
    ∀ (rest : List Frame) (f : Frame), f.length = 8 →
      (∀ g ∈ rest, List.length g = 8) →
      (rest.foldl (fun acc g => List.zipWith (fun x y => x ++ y) acc g) f).length = 8 := by
  intro rest
  induction rest with
  | nil =>
    intro f hf _
    simpa using hf
  | cons g rest ih =>
    intro f hf hrest
    simp only [List.foldl_cons]
    refine ih (List.zipWith (fun x y => x ++ y) f g) ?_ ?_
    · rw [List.length_zipWith, hf, hrest g (List.mem_cons_self g rest)]
      exact min_self 8
    · intro g' hg'
      exact hrest g' (List.mem_cons_of_mem g hg')

/-- Channel `i` of the column-wise fold is the concatenation of channel `i`
of every participating frame, in order. -/
theorem concat_fold_channel :
    ∀ (rest : List Frame) (f : Frame) (i : ℕ), f.length = 8 →
      (∀ g ∈ rest, List.length g = 8) → i < 8 →
      (((rest.foldl (fun acc g => List.zipWith (fun x y => x ++ y) acc g) f)[i]?).getD [])
        = ((f[i]?).getD []) ++ ((rest.map (fun g => (g[i]?).getD [])).flatten) := by
  intro rest
  induction rest with
  | nil =>
    intro f i _ _ _
    simp
  | cons g rest ih =>
    intro f i hf hrest hi
    simp only [List.foldl_cons, List.map_cons, List.flatten_cons]
    rw [ih (List.zipWith (fun x y => x ++ y) f g) i
      (by rw [List.length_zipWith, hf, hrest g (List.mem_cons_self g rest)]
          exact min_self 8)
      (fun g' hg' => hrest g' (List.mem_cons_of_mem g hg')) hi]
    have hif : i < f.length := by omega
    have hig : i < List.length g := by
      rw [hrest g (List.mem_cons_self g rest)]
      exact hi
    have hiz : i < (List.zipWith (fun x y => x ++ y) f g).length := by
      rw [List.length_zipWith]
      omega
    rw [List.getElem?_eq_getElem hiz, List.getElem?_eq_getElem hif,
      List.getElem?_eq_getElem hig]
    simp [List.getElem_zipWith, List.append_assoc]

/-- Every channel of a well-formed frame has the frame's chunk length. -/
theorem frame_channel_length (f : Frame) (i : ℕ) (h8 : f.length = 8)
    (hrow : ∀ row ∈ f, List.length row = ((f.head?).getD []).length)
    (hi : i < 8) :
    ((f[i]?).getD []).length = ((f.head?).getD []).length := by
  have hif : i < f.length := by omega
  rw [List.getElem?_eq_getElem hif]
  simp only [Option.getD_some]
  exact hrow _ (List.getElem_mem hif)

/-- The spec-side per-channel concatenation has one sample per buffered
sample row. -/
theorem specChannelConcat_length (buffer : List Frame) (i : ℕ)
    (hwf : ∀ f ∈ buffer, List.length f = 8 ∧
      ∀ row ∈ f, List.length row = ((f.head?).getD []).length)
    (hi : i < 8) :
    (specChannelConcat buffer i).length = totalSamples buffer := by
  unfold specChannelConcat totalSamples
  rw [List.length_flatten, List.map_map]
  refine congrArg List.sum (List.map_congr_left ?_)
  intro f hf
  simp only [Function.comp]
  exact frame_channel_length f i (hwf f hf).1 (hwf f hf).2 hi

/-- C7: exporting a non-empty buffer of well-formed frames yields the header
line `Channel 0,…,Channel 7` followed by one comma-separated line of 8
decimal integers per sample index, whose field `i` at sample `n` is sample
`n` of the arrival-order concatenation of channel `i` across the frames. -/
theorem save_recorded_data_csv_format (buffer : List Frame) (n : ℕ)
    (hne : buffer ≠ [])
    (hwf : ∀ f ∈ buffer, List.length f = 8 ∧
      ∀ row ∈ f, List.length row = ((f.head?).getD []).length)
    (hn : n < totalSamples buffer) :
    (saveRecordedData buffer).toOption.isSome = true ∧
    ((saveRecordedData buffer).toOption.getD []).length = totalSamples buffer + 1 ∧
    ((saveRecordedData buffer).toOption.getD [])[0]? =
      some "Channel 0,Channel 1,Channel 2,Channel 3,Channel 4,Channel 5,Channel 6,Channel 7" ∧
    ((saveRecordedData buffer).toOption.getD [])[n + 1]? =
      some (String.intercalate ","
        ((List.range 8).map
          (fun i => toString (((specChannelConcat buffer i)[n]?).getD 0)))) := by
  obtain ⟨f, rest, rfl⟩ := List.exists_cons_of_ne_nil hne
  have hsave : saveRecordedData (f :: rest) =
      Except.ok (csvHeader ::
        (npTranspose (rest.foldl (fun acc g => List.zipWith (fun x y => x ++ y) acc g) f)).map
          (fun row => String.intercalate "," (row.map toString))) := rfl
  set all := rest.foldl (fun acc g => List.zipWith (fun x y => x ++ y) acc g) f with hall
  have h8f : f.length = 8 := (hwf f (List.mem_cons_self f rest)).1
  have h8rest : ∀ g ∈ rest, List.length g = 8 :=
    fun g hg => (hwf g (List.mem_cons_of_mem f hg)).1
  have hallLen : all.length = 8 := concat_fold_length rest f h8f h8rest
  have hallCh : ∀ i, i < 8 → ((all[i]?).getD []) = specChannelConcat (f :: rest) i := by
    intro i hi
    rw [hall, concat_fold_channel rest f i h8f h8rest hi]
    simp [specChannelConcat]
  have hhead : ((all.head?).getD []).length = totalSamples (f :: rest) := by
    rw [List.head?_eq_getElem? all, hallCh 0 (by norm_num)]
    exact specChannelConcat_length (f :: rest) 0 hwf (by norm_num)
  have hT : npTranspose all =
      (List.range (totalSamples (f :: rest))).map
        (fun nn => all.map (fun row => ((row[nn]?).getD 0))) := by
    unfold npTranspose
    rw [hhead]
  refine ⟨?_, ?_, ?_, ?_⟩
  · rw [hsave]
    rfl
  · rw [hsave]
    simp [hT, Except.toOption]
  · rw [hsave]
    simp only [Except.toOption, Option.getD_some, List.getElem?_cons_zero]
    rfl
  · rw [hsave]
    simp only [Except.toOption, Option.getD_some, List.getElem?_cons_succ]
    rw [List.getElem?_map, hT, List.getElem?_map]
    simp only [List.getElem?_range, hn, if_pos, Option.map_some']
    have hrow : all.map (fun row => ((row[n]?).getD 0)) =
        (List.range 8).map (fun i => (((specChannelConcat (f :: rest) i)[n]?).getD 0)) := by
      rw [map_eq_range_map (fun row => ((row[n]?).getD 0)) [] all, hallLen]
      refine List.map_congr_left ?_
      intro i hi
      rw [hallCh i (List.mem_range.mp hi)]
    rw [hrow, List.map_map]
    congr 1

/-- Witness for C7 at the concrete two-frame buffer, sample index `2`
(the sample contributed by the second frame). -/
theorem save_recorded_data_csv_format_witness :
    (bufEx ≠ [] ∧
      (∀ f ∈ bufEx, List.length f = 8 ∧
        ∀ row ∈ f, List.length row = ((f.head?).getD []).length) ∧
      2 < totalSamples bufEx) ∧
    ((saveRecordedData bufEx).toOption.isSome = true ∧
     ((saveRecordedData bufEx).toOption.getD []).length = totalSamples bufEx + 1 ∧
     ((saveRecordedData bufEx).toOption.getD [])[0]? =
       some "Channel 0,Channel 1,Channel 2,Channel 3,Channel 4,Channel 5,Channel 6,Channel 7" ∧
     ((saveRecordedData bufEx).toOption.getD [])[2 + 1]? =
       some (String.intercalate ","
         ((List.range 8).map
           (fun i => toString (((specChannelConcat bufEx i)[2]?).getD 0))))) :=
  ⟨⟨by decide, by decide, by decide⟩,
   save_recorded_data_csv_format bufEx 2 (by decide) (by decide) (by decide)⟩

/-- Closed form of the phase accumulator before frame `k`. -/
theorem phaseAt_eq (k : ℕ) : phaseAt k = (k * CHUNK_SIZE) % SAMPLE_RATE := by
  induction k with
  | zero => simp [phaseAt, SAMPLE_RATE, CHUNK_SIZE]
  | succ k ih =>
    simp only [phaseAt, phaseStep, ih, SAMPLE_RATE, CHUNK_SIZE]
    omega

/-- Phase continuity: reducing the phase modulo `SAMPLE_RATE` does not
change the emulated sinusoid, because every channel frequency is an
integer number of hertz — frame `k`'s sample `j` of channel `i` equals the
ideal sinusoid at the absolute sample index `k * CHUNK_SIZE + j`. -/
theorem emuSignal_phase_continuity (k i j : ℕ) :
    emuSignal (phaseAt k) i j = emuIdeal i (k * CHUNK_SIZE + j) := by
  rw [phaseAt_eq]
  unfold emuSignal emuIdeal
  simp only [SAMPLE_RATE, CHUNK_SIZE]
  set m := k * 100 / 1000 with hm
  set p := k * 100 % 1000 with hp
  have hdm : 1000 * m + p = k * 100 := Nat.div_add_mod (k * 100) 1000
  congr 1
  have hdm2 : (k : ℝ) * 100 = 1000 * (m : ℝ) + (p : ℝ) := by
    exact_mod_cast hdm.symm
  have key : (2 * Real.pi * ((50 * (i + 1) : ℕ) : ℝ) * (((k * 100 + j : ℕ)) : ℝ) /
        ((1000 : ℕ) : ℝ)) =
      (2 * Real.pi * ((50 * (i + 1) : ℕ) : ℝ) * (((p + j : ℕ)) : ℝ) /
        ((1000 : ℕ) : ℝ)) +
      ((50 * (i + 1) * m : ℕ) : ℤ) * (2 * Real.pi) := by
    push_cast
    rw [hdm2]
    ring
  rw [key, Real.sin_add_int_mul_two_pi]

/-- Truncation toward zero lands within one unit of rounding to nearest. -/
theorem trunc_round_dist (x : ℝ) : |truncToward0 x - round x| ≤ 1 := by
  have h1 : ⌊x⌋ ≤ round x := by
    rw [round_eq]
    exact Int.floor_le_floor (by linarith)
  have h2 : round x ≤ ⌊x⌋ + 1 := by
    rw [round_eq]
    have h : ⌊x + 1 / 2⌋ ≤ ⌊x + 1⌋ := Int.floor_le_floor (by linarith)
    rwa [Int.floor_add_one] at h
  have h3 : ⌊x⌋ ≤ truncToward0 x := by
    unfold truncToward0
    split
    · exact le_refl _
    · exact Int.floor_le_ceil x
  have h4 : truncToward0 x ≤ ⌊x⌋ + 1 := by
    unfold truncToward0
    split
    · omega
    · exact Int.ceil_le_floor_add_one x
  rw [abs_le]
  omega

/-- The emulated signal value stays within the amplitude `2 ** 14`. -/
theorem emuSignal_abs_le (p i j : ℕ) : |emuSignal p i j| ≤ 16384 := by
  unfold emuSignal
  rw [abs_mul]
  have h1 : |(16384 : ℝ)| = 16384 := abs_of_nonneg (by norm_num)
  have h2 : |Real.sin (2 * Real.pi * ((50 * (i + 1) : ℕ) : ℝ) * (((p + j : ℕ)) : ℝ) /
      ((SAMPLE_RATE : ℕ) : ℝ))| ≤ 1 := Real.abs_sin_le_one _
  rw [h1]
  nlinarith [abs_nonneg (Real.sin (2 * Real.pi * ((50 * (i + 1) : ℕ) : ℝ) *
    (((p + j : ℕ)) : ℝ) / ((SAMPLE_RATE : ℕ) : ℝ)))]

/-- Truncation toward zero preserves the amplitude bound. -/
theorem truncToward0_abs_le (x : ℝ) (h : |x| ≤ 16384) :
    |truncToward0 x| ≤ 16384 := by
  rw [abs_le] at h
  have hf1 : (-16384 : ℤ) ≤ ⌊x⌋ := by
    rw [Int.le_floor]
    push_cast
    linarith
  have hf2 : ⌊x⌋ ≤ 16384 := by
    have hx : x ≤ ((16384 : ℤ) : ℝ) := by
      push_cast
      linarith
    calc ⌊x⌋ ≤ ⌊((16384 : ℤ) : ℝ)⌋ := Int.floor_le_floor hx
      _ = 16384 := Int.floor_intCast _
  have hc1 : (-16384 : ℤ) ≤ ⌈x⌉ := by
    calc (-16384 : ℤ) = ⌈((-16384 : ℤ) : ℝ)⌉ := (Int.ceil_intCast _).symm
      _ ≤ ⌈x⌉ := Int.ceil_le_ceil (by push_cast; linarith)
  have hc2 : ⌈x⌉ ≤ 16384 := by
    rw [Int.ceil_le]
    push_cast
    linarith
  unfold truncToward0
  split
  · rw [abs_le]
    omega
  · rw [abs_le]
    omega

/-- Within the int16 range the wrap-around conversion is the identity. -/
theorem toInt16_id (z : ℤ) (h : |z| ≤ 16384) : toInt16 z = z := by
  unfold toInt16
  rw [abs_le] at h
  omega

/-- An emulator int16 sample is exactly the truncated signal value: the
amplitude `2 ** 14` fits the int16 range, so no wrap-around occurs. -/
theorem emuSampleInt_eq_trunc (p i j : ℕ) :
    emuSampleInt p i j = truncToward0 (emuSignal p i j) := by
  unfold emuSampleInt
  exact toInt16_id _ (truncToward0_abs_le _ (emuSignal_abs_le p i j))

/-- C6: sample `j` of channel `i` of emulated frame `k` is stored at the
expected position of the frame, its real value equals the ideal sinusoid
`A * sin(2 * pi * 50 * (i+1) * n / R)` at absolute index
`n = k * CHUNK_SIZE + j` (phase continuity across frame boundaries), its
int16 value is within one unit of rounding that ideal value, and the phase
accumulator advances by `CHUNK_SIZE` modulo `SAMPLE_RATE` each frame. -/
theorem emulator_phase_continuity (k i j : ℕ) (hi : i < 8)
    (hj : j < CHUNK_SIZE) :
    (((emuFrame (phaseAt k))[i]?).getD [])[j]? =
      some (emuSampleInt (phaseAt k) i j) ∧
    emuSignal (phaseAt k) i j = emuIdeal i (k * CHUNK_SIZE + j) ∧
    |emuSampleInt (phaseAt k) i j - round (emuIdeal i (k * CHUNK_SIZE + j))| ≤ 1 ∧
    phaseAt (k + 1) = (phaseAt k + CHUNK_SIZE) % SAMPLE_RATE := by
  refine ⟨?_, emuSignal_phase_continuity k i j, ?_, rfl⟩
  · unfold emuFrame
    simp [List.getElem?_map, List.getElem?_range, hi, hj]
  · rw [emuSampleInt_eq_trunc, ← emuSignal_phase_continuity k i j]
    exact trunc_round_dist _

/-- Witness for C6 at frame `12` (where the phase accumulator has wrapped:
`12 * 100 % 1000 = 200`), channel `3`, sample `5`. -/
theorem emulator_phase_continuity_witness :
    ((3 : ℕ) < 8 ∧ (5 : ℕ) < CHUNK_SIZE) ∧
    ((((emuFrame (phaseAt 12))[3]?).getD [])[5]? =
      some (emuSampleInt (phaseAt 12) 3 5) ∧
     emuSignal (phaseAt 12) 3 5 = emuIdeal 3 (12 * CHUNK_SIZE + 5) ∧
     |emuSampleInt (phaseAt 12) 3 5 - round (emuIdeal 3 (12 * CHUNK_SIZE + 5))| ≤ 1 ∧
     phaseAt (12 + 1) = (phaseAt 12 + CHUNK_SIZE) % SAMPLE_RATE) :=
  ⟨⟨by decide, by decide⟩, emulator_phase_continuity 12 3 5 (by decide) (by decide)⟩
